import Mathlib

/-!
# Relational integrity of the family-tree store (`assets/js/app.js`)

A shallow embedding of the person store of `app.js` (`getPersons`,
`getPersonById`, `upsertPerson`, `deletePerson`) and of the submit handler of
the person form, followed by the properties of the store that are proved
about them.

Modelling conventions.

* A JavaScript string is the list of its UTF-16 code units (`JSString`), so
  that `.length`, `===`, `>` and `.trim()` are the operations of the language:
  length of the list, equality of lists, lexicographic order on code units,
  removal of white space and line terminators at both ends.
* The value stored under `KEYS.persons` is a list of person records
  (`Store`).  `LS.get` followed by `LS.set` is the identity on such a list, so
  every store function is a function from the stored list to the stored list.
* `uid("per")` is random; the identifier it returns is an argument (`newId`).
* `auth.userId` and `tree.id`, resolved when the page is loaded, are
  arguments (`userId`, `treeId`).
-/

namespace Gene

/-- A JavaScript string: its UTF-16 code units. -/
abbrev JSString := List Nat

/-- The code units of a string literal (two units for a character outside
the basic plane). -/
def str (s : String) : JSString :=
  s.toList.flatMap fun c =>
    if c.toNat < 65536 then [c.toNat]
    else [55296 + (c.toNat - 65536) / 1024, 56320 + (c.toNat - 65536) % 1024]

/-- White space and line terminators, the code units `String.prototype.trim`
removes. -/
def isTrimUnit (c : Nat) : Bool :=
  c == 9 || c == 10 || c == 11 || c == 12 || c == 13 || c == 32 || c == 160 ||
  c == 5760 || (8192 ≤ c && c ≤ 8202) || c == 8232 || c == 8233 || c == 8239 ||
  c == 8287 || c == 12288 || c == 65279

/-- The method `String.prototype.trim`. -/
def trim (s : JSString) : JSString :=
  ((s.dropWhile isTrimUnit).reverse.dropWhile isTrimUnit).reverse

/-- The comparison `a < b` of two strings: code unit by code unit, a proper
initial segment being smaller. -/
def strLt : JSString → JSString → Bool
  | [], [] => false
  | [], _ :: _ => true
  | _ :: _, [] => false
  | a :: as, b :: bs => if a < b then true else if b < a then false else strLt as bs

/-- The comparison `a > b` of two strings. -/
def strGt (a b : JSString) : Bool := strLt b a

/-- A person record: `{ id, ownerId, treeId, firstName, lastName, sex,
birthDate, deathDate, note, fatherId, motherId, partnerId }`. -/
structure Person where
  id : JSString
  ownerId : JSString
  treeId : JSString
  firstName : JSString
  lastName : JSString
  sex : JSString
  birthDate : JSString
  deathDate : JSString
  note : JSString
  fatherId : JSString
  motherId : JSString
  partnerId : JSString
  deriving DecidableEq, Repr

/-- The array stored under `KEYS.persons`. -/
abbrev Store := List Person

/-- The function `getPersons(ownerId, treeId)`. -/
def getPersons (s : Store) (ownerId treeId : JSString) : List Person :=
  s.filter fun p => decide (p.ownerId = ownerId) && decide (p.treeId = treeId)

/-- The function `getPersonById(id)`; `none` is `null`. -/
def getPersonById (s : Store) (id : JSString) : Option Person :=
  s.find? fun p => decide (p.id = id)

/-- The function `upsertPerson(person)`: the record at the first index whose
id is `person.id` is replaced, and without such an index the record is
pushed. -/
def upsertPerson (s : Store) (person : Person) : Store :=
  let idx := s.findIdx fun p => decide (p.id = person.id)
  if idx < s.length then s.set idx person else s ++ [person]

/-- The body of the loop of `deletePerson`: the three relation fields equal
to `personId` are set to the empty string, one after the other. -/
def clearRefs (personId : JSString) (p : Person) : Person :=
  let p1 := if p.fatherId = personId then { p with fatherId := [] } else p
  let p2 := if p1.motherId = personId then { p1 with motherId := [] } else p1
  if p2.partnerId = personId then { p2 with partnerId := [] } else p2

/-- The function `deletePerson(personId)`. -/
def deletePerson (s : Store) (personId : JSString) : Store :=
  (s.filter fun p => decide (p.id ≠ personId)).map (clearRefs personId)

/-- The values read from the fields of the person form. -/
structure FormValues where
  firstName : JSString
  lastName : JSString
  sex : JSString
  birthDate : JSString
  deathDate : JSString
  note : JSString
  fatherId : JSString
  motherId : JSString
  partnerId : JSString
  deriving DecidableEq, Repr

/-- The three warnings of the submit handler. -/
inductive Rejection where
  | nameTooShort
  | birthAfterDeath
  | selfReference
  deriving DecidableEq, Repr

/-- What the submit handler did: it returned after a warning, or it saved a
record. -/
inductive Outcome where
  | rejected (r : Rejection)
  | saved (p : Person)
  deriving DecidableEq, Repr

/-- The constant `existing` of the person form page: for a non-empty
`personId`, the first person of the tree with that id. -/
def loadExisting (s : Store) (userId treeId personId : JSString) : Option Person :=
  if personId = [] then none
  else (getPersons s userId treeId).find? fun p => decide (p.id = personId)

/-- The test of the third warning: an existing person is edited and one of the
three relation fields is its own id. -/
def selfReferenced (existing : Option Person) (fatherId motherId partnerId : JSString) : Bool :=
  match existing with
  | some e => decide (fatherId = e.id) || decide (motherId = e.id) || decide (partnerId = e.id)
  | none => false

/-- The record `p` the submit handler builds: a copy of `existing`, or a new
record with a generated id in the tree of the page, with the nine fields of
the form assigned. -/
def buildPerson (userId treeId : JSString) (existing : Option Person) (newId : JSString)
    (v : FormValues) : Person :=
  let base : Person :=
    match existing with
    | some e => e
    | none =>
      { id := newId, ownerId := userId, treeId := treeId, firstName := [], lastName := [],
        sex := [], birthDate := [], deathDate := [], note := [],
        fatherId := [], motherId := [], partnerId := [] }
  { base with
    firstName := trim v.firstName, lastName := trim v.lastName, sex := v.sex,
    birthDate := v.birthDate, deathDate := v.deathDate, note := trim v.note,
    fatherId := v.fatherId, motherId := v.motherId, partnerId := v.partnerId }

/-- The part of the submit handler under the comment "Keep partner symmetry
if chosen". -/
def linkPartner (s : Store) (partnerId : JSString) (p : Person) : Store :=
  if partnerId ≠ [] then
    match getPersonById s partnerId with
    | some partner => upsertPerson s { partner with partnerId := p.id }
    | none => s
  else s

/-- The submit handler of the person form, on the stored persons: the
outcome and the persons stored afterwards. -/
def submitPersonForm (userId treeId : JSString) (existing : Option Person) (newId : JSString)
    (v : FormValues) (s : Store) : Outcome × Store :=
  if (trim v.firstName).length < 2 ∨ (trim v.lastName).length < 2 then
    (Outcome.rejected Rejection.nameTooShort, s)
  else if v.birthDate ≠ [] ∧ v.deathDate ≠ [] ∧ strGt v.birthDate v.deathDate = true then
    (Outcome.rejected Rejection.birthAfterDeath, s)
  else if selfReferenced existing v.fatherId v.motherId v.partnerId = true then
    (Outcome.rejected Rejection.selfReference, s)
  else
    let p := buildPerson userId treeId existing newId v
    (Outcome.saved p, linkPartner (upsertPerson s p) v.partnerId p)

/-- A person save on a store: the page is loaded (`existing` is read from the
store) and the form is submitted on the same store. -/
def savePerson (userId treeId personId newId : JSString) (v : FormValues) (s : Store) :
    Outcome × Store :=
  submitPersonForm userId treeId (loadExisting s userId treeId personId) newId v s

/-! ## Properties of a store and of a pair of records used by the statements -/

/-- The relation between a record `p` and the record `q` left in its place by
a deletion of `i`: every field is the one of `p`, except that a relation field
of `p` equal to `i` is the empty string in `q`. -/
def ClearedFrom (i : JSString) (p q : Person) : Prop :=
  q.id = p.id ∧ q.ownerId = p.ownerId ∧ q.treeId = p.treeId ∧ q.firstName = p.firstName ∧
  q.lastName = p.lastName ∧ q.sex = p.sex ∧ q.birthDate = p.birthDate ∧
  q.deathDate = p.deathDate ∧ q.note = p.note ∧
  q.fatherId = (if p.fatherId = i then [] else p.fatherId) ∧
  q.motherId = (if p.motherId = i then [] else p.motherId) ∧
  q.partnerId = (if p.partnerId = i then [] else p.partnerId)

/-- Referential integrity: every non-empty `fatherId`, `motherId` and
`partnerId` is the id of a stored person of the same tree. -/
def ReferencesResolve (s : Store) : Prop :=
  ∀ p ∈ s, ∀ r ∈ [p.fatherId, p.motherId, p.partnerId], r ≠ [] →
    ∃ q ∈ s, q.id = r ∧ q.treeId = p.treeId

instance (s : Store) : Decidable (ReferencesResolve s) := by
  unfold ReferencesResolve; infer_instance

/-- Partner symmetry: `a.partnerId == b.id` implies `b.partnerId == a.id`. -/
def PartnerSymmetric (s : Store) : Prop :=
  ∀ a ∈ s, ∀ b ∈ s, a.partnerId = b.id → b.partnerId = a.id

instance (s : Store) : Decidable (PartnerSymmetric s) := by
  unfold PartnerSymmetric; infer_instance

/-- No two stored persons have the same id. -/
def UniqueIds (s : Store) : Prop := (s.map Person.id).Nodup

instance (s : Store) : Decidable (UniqueIds s) := by
  unfold UniqueIds; infer_instance

/-- Every person of `t` that has the id of a person of `s` has its `ownerId`
and its `treeId`. -/
def OwnerTreeKept (s t : Store) : Prop :=
  ∀ a ∈ s, ∀ b ∈ t, b.id = a.id → b.ownerId = a.ownerId ∧ b.treeId = a.treeId

instance (s t : Store) : Decidable (OwnerTreeKept s t) := by
  unfold OwnerTreeKept; infer_instance

/-- The code unit of the last decimal digit of `n`. -/
def digitUnit (n : Nat) : Nat := 48 + n % 10

/-- The date of year `y`, month `m` and day `d` written `YYYY-MM-DD`: four
digits, a hyphen (code unit 45), two digits, a hyphen, two digits. -/
def isoDate (y m d : Nat) : JSString :=
  [digitUnit (y / 1000), digitUnit (y / 100), digitUnit (y / 10), digitUnit y, 45,
   digitUnit (m / 10), digitUnit m, 45, digitUnit (d / 10), digitUnit d]

/-- The day `y1-m1-d1` is a later calendar day than `y2-m2-d2`. -/
def laterDay (y1 m1 d1 y2 m2 d2 : Nat) : Prop :=
  y2 < y1 ∨ (y1 = y2 ∧ (m2 < m1 ∨ (m1 = m2 ∧ d2 < d1)))

instance (y1 m1 d1 y2 m2 d2 : Nat) : Decidable (laterDay y1 m1 d1 y2 m2 d2) := by
  unfold laterDay; infer_instance

/-! ## The demo data of `seedIfEmpty`, used as concrete input -/

/-- The record `a` of `seedIfEmpty`, after `a.partnerId = b.id`. -/
def seedA (ownerId treeId a b : JSString) : Person :=
  { id := a, ownerId := ownerId, treeId := treeId, firstName := str "Jan",
    lastName := str "Kowalski", sex := str "M", birthDate := str "1970-04-12", deathDate := [],
    note := [], fatherId := [], motherId := [], partnerId := b }

/-- The record `b` of `seedIfEmpty`, after `b.partnerId = a.id`. -/
def seedB (ownerId treeId a b : JSString) : Person :=
  { id := b, ownerId := ownerId, treeId := treeId, firstName := str "Anna",
    lastName := str "Kowalska", sex := str "F", birthDate := str "1972-09-03", deathDate := [],
    note := [], fatherId := [], motherId := [], partnerId := a }

/-- The record `c` of `seedIfEmpty`. -/
def seedC (ownerId treeId a b c : JSString) : Person :=
  { id := c, ownerId := ownerId, treeId := treeId, firstName := str "Piotr",
    lastName := str "Kowalski", sex := str "M", birthDate := str "1999-01-15", deathDate := [],
    note := str "Syn Jana i Anny", fatherId := a, motherId := b, partnerId := [] }

/-- The last line of `seedIfEmpty`: `upsertPerson(a); upsertPerson(b);
upsertPerson(c)`, the three ids being the ones `uid` returned. -/
def seedPersons (s : Store) (ownerId treeId a b c : JSString) : Store :=
  upsertPerson (upsertPerson (upsertPerson s (seedA ownerId treeId a b)) (seedB ownerId treeId a b))
    (seedC ownerId treeId a b c)

/-- The seeded store of user `usr_1`: Jan (`per_a`) and Anna (`per_b`),
partners of each other, and their son Piotr (`per_c`). -/
def demoStore : Store :=
  seedPersons [] (str "usr_1") (str "tre_1") (str "per_a") (str "per_b") (str "per_c")

/-- A store whose only person, Piotr, has a father and a mother that are not
stored. -/
def orphanStore : Store :=
  [seedC (str "usr_1") (str "tre_1") (str "per_a") (str "per_b") (str "per_c")]

/-- Form values: Ewa Nowak, with Jan (`per_a`) chosen as partner. -/
def ewa : FormValues :=
  { firstName := str "Ewa", lastName := str "Nowak", sex := str "F", birthDate := str "1975-02-01",
    deathDate := [], note := [], fatherId := [], motherId := [], partnerId := str "per_a" }

/-! ## Lemmas on `clearRefs` and `deletePerson` -/

theorem clearRefs_eq (i : JSString) (p : Person) :
    clearRefs i p =
      { p with
        fatherId := if p.fatherId = i then [] else p.fatherId
        motherId := if p.motherId = i then [] else p.motherId
        partnerId := if p.partnerId = i then [] else p.partnerId } := by
  obtain ⟨a1, a2, a3, a4, a5, a6, a7, a8, a9, f, m, r⟩ := p
  by_cases hf : f = i <;> by_cases hm : m = i <;> by_cases hp : r = i <;>
    simp [clearRefs, hf, hm, hp]

@[simp] theorem clearRefs_id (i : JSString) (p : Person) : (clearRefs i p).id = p.id := by
  rw [clearRefs_eq]

@[simp] theorem clearRefs_ownerId (i : JSString) (p : Person) :
    (clearRefs i p).ownerId = p.ownerId := by
  rw [clearRefs_eq]

@[simp] theorem clearRefs_treeId (i : JSString) (p : Person) :
    (clearRefs i p).treeId = p.treeId := by
  rw [clearRefs_eq]

theorem clearRefs_fatherId (i : JSString) (p : Person) :
    (clearRefs i p).fatherId = if p.fatherId = i then [] else p.fatherId := by
  rw [clearRefs_eq]

theorem clearRefs_motherId (i : JSString) (p : Person) :
    (clearRefs i p).motherId = if p.motherId = i then [] else p.motherId := by
  rw [clearRefs_eq]

theorem clearRefs_partnerId (i : JSString) (p : Person) :
    (clearRefs i p).partnerId = if p.partnerId = i then [] else p.partnerId := by
  rw [clearRefs_eq]

theorem clearRefs_idem (i : JSString) (p : Person) :
    clearRefs i (clearRefs i p) = clearRefs i p := by
  rw [clearRefs_eq i (clearRefs i p)]
  simp only [clearRefs_eq i p]
  congr 1 <;> split_ifs <;> simp_all

theorem clearRefs_of_ne (i : JSString) (p : Person) (hf : p.fatherId ≠ i) (hm : p.motherId ≠ i)
    (hp : p.partnerId ≠ i) : clearRefs i p = p := by
  rw [clearRefs_eq]; simp [hf, hm, hp]

theorem mem_deletePerson {s : Store} {i : JSString} {q : Person} :
    q ∈ deletePerson s i ↔ ∃ p ∈ s, p.id ≠ i ∧ clearRefs i p = q := by
  simp [deletePerson, and_assoc]

theorem id_ne_of_mem_deletePerson {s : Store} {i : JSString} {q : Person}
    (hq : q ∈ deletePerson s i) : q.id ≠ i := by
  obtain ⟨p, -, hne, rfl⟩ := mem_deletePerson.1 hq
  simpa using hne

/-- Without a person of id `i`, the filter of `deletePerson` keeps everybody. -/
theorem deletePerson_eq_map {s : Store} {i : JSString} (habs : ∀ p ∈ s, p.id ≠ i) :
    deletePerson s i = s.map (clearRefs i) := by
  unfold deletePerson
  rw [List.filter_eq_self.2]
  intro p hp
  simpa using habs p hp

/-! ## Lemmas on `getPersonById` and `upsertPerson` -/

theorem getPersonById_eq_none {s : Store} {i : JSString} :
    getPersonById s i = none ↔ ∀ p ∈ s, p.id ≠ i := by
  simp [getPersonById]

theorem getPersonById_cons (q : Person) (s : Store) (i : JSString) :
    getPersonById (q :: s) i = if q.id = i then some q else getPersonById s i := by
  simp only [getPersonById, List.find?_cons]
  by_cases h : q.id = i <;> simp [h]

theorem getPersonById_some {s : Store} {i : JSString} {p : Person}
    (h : getPersonById s i = some p) : p ∈ s ∧ p.id = i := by
  unfold getPersonById at h
  exact ⟨List.mem_of_find?_eq_some h, by simpa using List.find?_some h⟩

theorem getPersonById_isSome {s : Store} {i : JSString} {b : Person} (hb : b ∈ s)
    (hi : b.id = i) : ∃ p, getPersonById s i = some p := by
  cases h : getPersonById s i with
  | some p => exact ⟨p, rfl⟩
  | none => exact absurd hi (getPersonById_eq_none.1 h b hb)

theorem upsertPerson_nil (p : Person) : upsertPerson [] p = [p] := by
  simp [upsertPerson]

/-- The index search of `upsertPerson`, one record at a time. -/
theorem upsertPerson_cons (q : Person) (s : Store) (p : Person) :
    upsertPerson (q :: s) p = if q.id = p.id then p :: s else q :: upsertPerson s p := by
  simp only [upsertPerson, List.findIdx_cons]
  by_cases h : q.id = p.id
  · simp [h]
  · simp [h]
    split_ifs <;> simp

theorem getPersonById_upsert_self (s : Store) (p : Person) :
    getPersonById (upsertPerson s p) p.id = some p := by
  induction s with
  | nil => simp [upsertPerson_nil, getPersonById_cons]
  | cons q s ih =>
    rw [upsertPerson_cons]
    by_cases h : q.id = p.id
    · simp [h, getPersonById_cons]
    · simp [h, getPersonById_cons, ih]

theorem getPersonById_upsert_of_ne (s : Store) (p : Person) (i : JSString) (h : i ≠ p.id) :
    getPersonById (upsertPerson s p) i = getPersonById s i := by
  induction s with
  | nil => simp [upsertPerson_nil, getPersonById_cons, Ne.symm h, getPersonById]
  | cons q s ih =>
    rw [upsertPerson_cons]
    by_cases hq : q.id = p.id
    · have : q.id ≠ i := by rw [hq]; exact Ne.symm h
      simp [hq, getPersonById_cons, this, Ne.symm h]
    · simp [hq, getPersonById_cons, ih]

theorem mem_upsertPerson {s : Store} {p q : Person} (h : q ∈ upsertPerson s p) :
    q = p ∨ q ∈ s := by
  induction s with
  | nil => simpa [upsertPerson_nil] using h
  | cons a s ih =>
    rw [upsertPerson_cons] at h
    by_cases ha : a.id = p.id
    · simp only [ha, if_true, List.mem_cons] at h
      rcases h with h | h
      · exact Or.inl h
      · exact Or.inr (List.mem_cons_of_mem _ h)
    · simp only [ha, if_false, List.mem_cons] at h
      rcases h with h | h
      · exact Or.inr (h ▸ List.mem_cons_self _ _)
      · rcases ih h with h | h
        · exact Or.inl h
        · exact Or.inr (List.mem_cons_of_mem _ h)

/-- The ids after `upsertPerson`: the same list, or one more id at the end. -/
theorem map_id_upsertPerson (s : Store) (p : Person) :
    (upsertPerson s p).map Person.id =
      if p.id ∈ s.map Person.id then s.map Person.id else s.map Person.id ++ [p.id] := by
  induction s with
  | nil => simp [upsertPerson_nil]
  | cons a s ih =>
    rw [upsertPerson_cons]
    by_cases ha : a.id = p.id
    · simp [ha]
    · have hne : p.id ≠ a.id := Ne.symm ha
      simp only [ha, if_false, List.map_cons, List.mem_cons, hne, false_or, ih]
      split_ifs <;> simp

/-! ## Lemmas on the submit handler -/

theorem buildPerson_some (u t : JSString) (e : Person) (n : JSString) (v : FormValues) :
    (buildPerson u t (some e) n v).id = e.id ∧
    (buildPerson u t (some e) n v).ownerId = e.ownerId ∧
    (buildPerson u t (some e) n v).treeId = e.treeId := ⟨rfl, rfl, rfl⟩

theorem buildPerson_none (u t n : JSString) (v : FormValues) :
    (buildPerson u t none n v).id = n ∧ (buildPerson u t none n v).ownerId = u ∧
    (buildPerson u t none n v).treeId = t := ⟨rfl, rfl, rfl⟩

theorem selfReferenced_iff (e : Option Person) (f m r : JSString) :
    selfReferenced e f m r = true ↔ ∃ x, e = some x ∧ (f = x.id ∨ m = x.id ∨ r = x.id) := by
  cases e with
  | none => simp [selfReferenced]
  | some x => simp [selfReferenced, or_assoc]

/-- An accepted submit: the record is the built one and the store is the one
of the last branch of the handler. -/
theorem submitPersonForm_saved {u t n : JSString} {e : Option Person} {v : FormValues}
    {s : Store} {p : Person}
    (h : (submitPersonForm u t e n v s).1 = Outcome.saved p) :
    p = buildPerson u t e n v ∧
    (submitPersonForm u t e n v s).2 =
      linkPartner (upsertPerson s (buildPerson u t e n v)) v.partnerId (buildPerson u t e n v) := by
  unfold submitPersonForm at h ⊢
  split_ifs at h ⊢
  exact ⟨(Outcome.saved.inj h).symm, rfl⟩

/-- The lookups after the partner step of the handler. -/
theorem getPersonById_linkPartner (s : Store) (r : JSString) (p partner : Person)
    (hr : r ≠ []) (hp : getPersonById s r = some partner) :
    getPersonById (linkPartner s r p) r = some { partner with partnerId := p.id } ∧
    ∀ i, i ≠ r → getPersonById (linkPartner s r p) i = getPersonById s i := by
  have hid : partner.id = r := (getPersonById_some hp).2
  have hl : linkPartner s r p = upsertPerson s { partner with partnerId := p.id } := by
    simp [linkPartner, hr, hp]
  rw [hl]
  refine ⟨?_, fun i hi => ?_⟩
  · have := getPersonById_upsert_self s { partner with partnerId := p.id }
    simpa [hid] using this
  · exact getPersonById_upsert_of_ne s _ i (by simpa [hid] using hi)

/-- The written record is the one found under its id after the whole save. -/
theorem getPersonById_saved (s : Store) (p : Person) :
    getPersonById (linkPartner (upsertPerson s p) p.partnerId p) p.id = some p := by
  have hself : getPersonById (upsertPerson s p) p.id = some p := getPersonById_upsert_self s p
  by_cases hr : p.partnerId = []
  · simp [linkPartner, hr, hself]
  · cases hq : getPersonById (upsertPerson s p) p.partnerId with
    | none => simp [linkPartner, hr, hq, hself]
    | some partner =>
      obtain ⟨h1, h2⟩ := getPersonById_linkPartner (upsertPerson s p) p.partnerId p partner hr hq
      by_cases hc : p.id = p.partnerId
      · have hpp : partner = p := by
          rw [← hc, hself] at hq
          exact (Option.some.inj hq).symm
        conv_lhs => rw [hc]
        rw [h1, hpp]
        congr 1
        obtain ⟨a1, a2, a3, a4, a5, a6, a7, a8, a9, f, m, r⟩ := p
        simp at hc ⊢
        exact hc
      · rw [h2 p.id hc, hself]

/-! ## Lemmas on unique ids and on the owner and the tree of a record -/

theorem eq_of_id_eq {s : Store} (hu : UniqueIds s) {a b : Person} (ha : a ∈ s) (hb : b ∈ s)
    (h : a.id = b.id) : a = b :=
  List.inj_on_of_nodup_map hu ha hb h

theorem uniqueIds_upsertPerson {s : Store} (hu : UniqueIds s) (p : Person) :
    UniqueIds (upsertPerson s p) := by
  unfold UniqueIds at hu ⊢
  rw [map_id_upsertPerson]
  split_ifs with h
  · exact hu
  · rw [List.nodup_append]
    refine ⟨hu, List.nodup_singleton _, ?_⟩
    intro x hx hx'
    rw [List.mem_singleton] at hx'
    exact h (hx' ▸ hx)

theorem ownerTreeKept_self {s : Store} (hu : UniqueIds s) : OwnerTreeKept s s := by
  intro a ha b hb h
  rw [eq_of_id_eq hu hb ha h]
  exact ⟨rfl, rfl⟩

theorem ownerTreeKept_upsertPerson {s : Store} (hu : UniqueIds s) (p : Person)
    (hp : ∀ a ∈ s, a.id = p.id → p.ownerId = a.ownerId ∧ p.treeId = a.treeId) :
    OwnerTreeKept s (upsertPerson s p) := by
  intro a ha b hb h
  rcases mem_upsertPerson hb with hb | hb
  · subst hb; exact hp a ha h.symm
  · exact ownerTreeKept_self hu a ha b hb h

theorem id_kept_upsertPerson {s : Store} (p : Person) {a : Person} (ha : a ∈ s) :
    ∃ c ∈ upsertPerson s p, c.id = a.id := by
  have hmem : a.id ∈ (upsertPerson s p).map Person.id := by
    rw [map_id_upsertPerson]
    have : a.id ∈ s.map Person.id := List.mem_map_of_mem _ ha
    split_ifs
    · exact this
    · exact List.mem_append_left _ this
  obtain ⟨c, hc, hci⟩ := List.mem_map.1 hmem
  exact ⟨c, hc, hci⟩

theorem ownerTreeKept_linkPartner {s : Store} (hu : UniqueIds s) (r : JSString) (p : Person) :
    OwnerTreeKept s (linkPartner s r p) := by
  unfold linkPartner
  split_ifs with hr
  · cases hq : getPersonById s r with
    | none => exact ownerTreeKept_self hu
    | some partner =>
      have hmem := (getPersonById_some hq).1
      apply ownerTreeKept_upsertPerson hu
      intro a ha hid
      have : a = partner := eq_of_id_eq hu ha hmem hid
      subst this
      exact ⟨rfl, rfl⟩
  · exact ownerTreeKept_self hu

theorem loadExisting_some {s : Store} {u t i : JSString} {e : Person}
    (h : loadExisting s u t i = some e) : e ∈ s := by
  unfold loadExisting at h
  split_ifs at h
  have := List.mem_of_find?_eq_some h
  unfold getPersons at this
  exact (List.mem_filter.1 this).1

/-! ## Lemmas on the order of strings -/

theorem strLt_cons (a b : Nat) (as bs : JSString) :
    strLt (a :: as) (b :: bs) = if a < b then true else if b < a then false else strLt as bs := by
  rw [strLt]

theorem strLt_same (a : Nat) (as bs : JSString) : strLt (a :: as) (a :: bs) = strLt as bs := by
  rw [strLt_cons]; simp

theorem strLt_two_digits (m n : Nat) (hm : m < 100) (hn : n < 100) (s t : JSString) :
    strLt (digitUnit (m / 10) :: digitUnit m :: s) (digitUnit (n / 10) :: digitUnit n :: t) =
      if m < n then true else if n < m then false else strLt s t := by
  rw [strLt_cons, strLt_cons]
  unfold digitUnit
  split_ifs <;> first | rfl | (exfalso; omega)

theorem strLt_four_digits (m n : Nat) (hm : m < 10000) (hn : n < 10000) (s t : JSString) :
    strLt (digitUnit (m / 1000) :: digitUnit (m / 100) :: digitUnit (m / 10) :: digitUnit m :: s)
        (digitUnit (n / 1000) :: digitUnit (n / 100) :: digitUnit (n / 10) :: digitUnit n :: t) =
      if m < n then true else if n < m then false else strLt s t := by
  rw [strLt_cons, strLt_cons, strLt_cons, strLt_cons]
  unfold digitUnit
  split_ifs <;> first | rfl | (exfalso; omega)

/-- On two dates written `YYYY-MM-DD`, the order of strings is the order of
the calendar. -/
theorem strGt_isoDate (y1 m1 d1 y2 m2 d2 : Nat) (hy1 : y1 < 10000) (hm1 : m1 < 100)
    (hd1 : d1 < 100) (hy2 : y2 < 10000) (hm2 : m2 < 100) (hd2 : d2 < 100) :
    strGt (isoDate y1 m1 d1) (isoDate y2 m2 d2) = true ↔ laterDay y1 m1 d1 y2 m2 d2 := by
  unfold strGt isoDate laterDay
  rw [strLt_four_digits y2 y1 hy2 hy1, strLt_same, strLt_two_digits m2 m1 hm2 hm1, strLt_same,
    strLt_two_digits d2 d1 hd2 hd1]
  have hnil : strLt [] [] = false := by rw [strLt]
  rw [hnil]
  split_ifs <;> simp <;> omega

/-- The function `isoDate` writes the dates the way the form does. -/
theorem isoDate_examples :
    isoDate 2000 1 1 = str "2000-01-01" ∧ isoDate 1999 1 1 = str "1999-01-01" ∧
    isoDate 1970 4 12 = str "1970-04-12" := by
  decide

/-- With non-empty ids, `deletePerson` keeps partner symmetry. -/
theorem deletePerson_partnerSymmetric (s : Store) (i : JSString)
    (hid : ∀ p ∈ s, p.id ≠ []) (h : PartnerSymmetric s) :
    PartnerSymmetric (deletePerson s i) := by
  intro a ha b hb hab
  obtain ⟨a0, ha0, hai, rfl⟩ := mem_deletePerson.1 ha
  obtain ⟨b0, hb0, hbi, rfl⟩ := mem_deletePerson.1 hb
  rw [clearRefs_partnerId, clearRefs_id] at hab
  rw [clearRefs_partnerId, clearRefs_id]
  split_ifs at hab with hc
  · exact absurd hab.symm (hid b0 hb0)
  · have := h a0 ha0 b0 hb0 hab
    rw [this, if_neg hai]

/-! ## The properties of the store -/

/-- Claim C1: after `deletePerson(id)`, `getPersonById(id)` is `null`, and the
stored list is the previous one without the persons of that id, in the same
order, each remaining record being its previous value except that a
`fatherId`, `motherId` or `partnerId` equal to the id is now the empty
string.  Nobody else is removed. -/
theorem deletePerson_removes_and_clears (s : Store) (i : JSString) :
    getPersonById (deletePerson s i) i = none ∧
    List.Forall₂ (ClearedFrom i) (s.filter fun p => decide (p.id ≠ i)) (deletePerson s i) := by
  refine ⟨?_, ?_⟩
  · rw [getPersonById_eq_none]
    exact fun q hq => id_ne_of_mem_deletePerson hq
  · unfold deletePerson
    rw [List.forall₂_map_right_iff, List.forall₂_same]
    intro p _
    simp [ClearedFrom, clearRefs_eq]

/-- Claim C2: after an accepted submit (a new person or an edited one) whose
`partnerId` is the non-empty id of a stored person `B`, the record found under
`B.id` has the saved person as partner and the record found under the id of
the saved person has `B` as partner, whatever partner `B` had. -/
theorem save_links_partner (userId treeId newId : JSString) (existing : Option Person)
    (v : FormValues) (s : Store) (p B : Person)
    (hsave : (submitPersonForm userId treeId existing newId v s).1 = Outcome.saved p)
    (hne : v.partnerId ≠ []) (hB : B ∈ s) (hBid : B.id = v.partnerId) :
    (getPersonById (submitPersonForm userId treeId existing newId v s).2 B.id).map
        Person.partnerId = some p.id ∧
    (getPersonById (submitPersonForm userId treeId existing newId v s).2 p.id).map
        Person.partnerId = some B.id := by
  obtain ⟨hp, hs'⟩ := submitPersonForm_saved hsave
  subst hp
  set p := buildPerson userId treeId existing newId v with hpdef
  have hself : getPersonById (upsertPerson s p) p.id = some p := getPersonById_upsert_self s p
  have hfind : ∃ partner, getPersonById (upsertPerson s p) v.partnerId = some partner := by
    by_cases hc : v.partnerId = p.id
    · exact ⟨p, hc ▸ hself⟩
    · rw [getPersonById_upsert_of_ne s p _ hc]
      exact getPersonById_isSome hB hBid
  obtain ⟨partner, hpartner⟩ := hfind
  obtain ⟨h1, h2⟩ := getPersonById_linkPartner (upsertPerson s p) v.partnerId p partner hne hpartner
  rw [hs', hBid]
  refine ⟨by rw [h1]; rfl, ?_⟩
  by_cases hc : p.id = v.partnerId
  · rw [hc, h1]; simp [hc]
  · rw [h2 p.id hc, hself]; simp [hpdef, buildPerson]

/-- Claim C2 on the seeded store: Ewa is created with Jan as partner; Jan, who
had Anna as partner, now has Ewa, and Ewa has Jan. -/
theorem save_links_partner_seeded :
    (getPersonById
        (submitPersonForm (str "usr_1") (str "tre_1") none (str "per_d") ewa demoStore).2
        (str "per_a")).map Person.partnerId = some (str "per_d") ∧
    (getPersonById
        (submitPersonForm (str "usr_1") (str "tre_1") none (str "per_d") ewa demoStore).2
        (str "per_d")).map Person.partnerId = some (str "per_a") :=
  save_links_partner (str "usr_1") (str "tre_1") (str "per_d") none ewa demoStore
    (buildPerson (str "usr_1") (str "tre_1") none (str "per_d") ewa)
    (seedA (str "usr_1") (str "tre_1") (str "per_a") (str "per_b"))
    (by decide) (by decide) (by decide) (by decide)

/-- Claim C3, at the input where the handler breaks it: on the seeded store,
which has unique ids and symmetric partners (Jan and Anna), Ewa is created
with Jan as partner.  The save is accepted; afterwards Anna still has Jan as
partner while Jan has Ewa, so the partners are no longer symmetric. -/
theorem save_breaks_partner_symmetry :
    UniqueIds demoStore ∧ PartnerSymmetric demoStore ∧
    (savePerson (str "usr_1") (str "tre_1") [] (str "per_d") ewa demoStore).1 =
      Outcome.saved (buildPerson (str "usr_1") (str "tre_1") none (str "per_d") ewa) ∧
    (getPersonById (savePerson (str "usr_1") (str "tre_1") [] (str "per_d") ewa demoStore).2
      (str "per_b")).map Person.partnerId = some (str "per_a") ∧
    (getPersonById (savePerson (str "usr_1") (str "tre_1") [] (str "per_d") ewa demoStore).2
      (str "per_a")).map Person.partnerId = some (str "per_d") ∧
    ¬ PartnerSymmetric
      (savePerson (str "usr_1") (str "tre_1") [] (str "per_d") ewa demoStore).2 := by
  refine ⟨by decide, by decide, by decide, by decide, by decide, by decide⟩

/-- Claim C4: the submit is rejected exactly when a trimmed name has fewer
than 2 code units, or both dates are non-empty and `birthDate > deathDate`, or
an existing person is edited and a relation field is its own id.  The tests
are made in that order (each warning is the one of the first test that
holds), and in every other case the built record is written: it is the record
found under its id afterwards. -/
theorem submit_rejected_iff (userId treeId newId : JSString) (existing : Option Person)
    (v : FormValues) (s : Store) :
    ((submitPersonForm userId treeId existing newId v s).1 =
        Outcome.rejected Rejection.nameTooShort ↔
      ((trim v.firstName).length < 2 ∨ (trim v.lastName).length < 2)) ∧
    ((submitPersonForm userId treeId existing newId v s).1 =
        Outcome.rejected Rejection.birthAfterDeath ↔
      ¬ ((trim v.firstName).length < 2 ∨ (trim v.lastName).length < 2) ∧
      (v.birthDate ≠ [] ∧ v.deathDate ≠ [] ∧ strGt v.birthDate v.deathDate = true)) ∧
    ((submitPersonForm userId treeId existing newId v s).1 =
        Outcome.rejected Rejection.selfReference ↔
      ¬ ((trim v.firstName).length < 2 ∨ (trim v.lastName).length < 2) ∧
      ¬ (v.birthDate ≠ [] ∧ v.deathDate ≠ [] ∧ strGt v.birthDate v.deathDate = true) ∧
      ∃ x, existing = some x ∧ (v.fatherId = x.id ∨ v.motherId = x.id ∨ v.partnerId = x.id)) ∧
    ((∃ r, (submitPersonForm userId treeId existing newId v s).1 = Outcome.rejected r) ↔
      ((trim v.firstName).length < 2 ∨ (trim v.lastName).length < 2) ∨
      (v.birthDate ≠ [] ∧ v.deathDate ≠ [] ∧ strGt v.birthDate v.deathDate = true) ∨
      ∃ x, existing = some x ∧ (v.fatherId = x.id ∨ v.motherId = x.id ∨ v.partnerId = x.id)) ∧
    ((¬ ∃ r, (submitPersonForm userId treeId existing newId v s).1 = Outcome.rejected r) →
      (submitPersonForm userId treeId existing newId v s).1 =
        Outcome.saved (buildPerson userId treeId existing newId v) ∧
      getPersonById (submitPersonForm userId treeId existing newId v s).2
        (buildPerson userId treeId existing newId v).id =
          some (buildPerson userId treeId existing newId v)) := by
  rw [← selfReferenced_iff]
  unfold submitPersonForm
  split_ifs with h1 h2 h3
  · simp [h1]
  · simp [h1, h2]
  · simp [h1, h2, h3]
  · simp only [h1, h2, h3]
    simp
    exact getPersonById_saved s (buildPerson userId treeId existing newId v)

/-- Claim C4 on the examples of the specification: the first name `A` is
rejected for its length and the first name `Ab` is not rejected. -/
theorem submit_rejected_examples :
    (submitPersonForm (str "usr_1") (str "tre_1") none (str "per_d")
        { ewa with firstName := str "A" } demoStore).1 =
      Outcome.rejected Rejection.nameTooShort ∧
    ¬ ∃ r, (submitPersonForm (str "usr_1") (str "tre_1") none (str "per_d")
        { ewa with firstName := str "Ab" } demoStore).1 = Outcome.rejected r :=
  ⟨(submit_rejected_iff (str "usr_1") (str "tre_1") (str "per_d") none
      { ewa with firstName := str "A" } demoStore).1.2 (by decide),
   fun h => absurd
    ((submit_rejected_iff (str "usr_1") (str "tre_1") (str "per_d") none
      { ewa with firstName := str "Ab" } demoStore).2.2.2.1.1 h) (by decide)⟩

/-- Claim C5: a rejected submit writes nothing: the stored list is unchanged.
In particular the edit of an existing person `x` with `fatherId`, `motherId`
or `partnerId` equal to `x.id` is rejected and leaves the stored list, hence
`x`, unchanged. -/
theorem rejected_save_writes_nothing (userId treeId newId : JSString)
    (existing : Option Person) (v : FormValues) (s : Store) :
    (∀ r, (submitPersonForm userId treeId existing newId v s).1 = Outcome.rejected r →
      (submitPersonForm userId treeId existing newId v s).2 = s) ∧
    (∀ x, existing = some x → (v.fatherId = x.id ∨ v.motherId = x.id ∨ v.partnerId = x.id) →
      (∃ r, (submitPersonForm userId treeId existing newId v s).1 = Outcome.rejected r) ∧
      (submitPersonForm userId treeId existing newId v s).2 = s) := by
  constructor
  · intro r hr
    unfold submitPersonForm at hr ⊢
    split_ifs at hr ⊢ <;> rfl
  · intro x hx hself
    have h3 : selfReferenced existing v.fatherId v.motherId v.partnerId = true :=
      (selfReferenced_iff _ _ _ _).2 ⟨x, hx, hself⟩
    unfold submitPersonForm
    split_ifs with h1 h2
    · exact ⟨⟨_, rfl⟩, rfl⟩
    · exact ⟨⟨_, rfl⟩, rfl⟩
    · exact ⟨⟨_, rfl⟩, rfl⟩

/-- Claim C5 on the seeded store: Jan is edited with himself as partner; the
submit is rejected and the store is the seeded one. -/
theorem rejected_save_seeded :
    (∃ r, (submitPersonForm (str "usr_1") (str "tre_1")
        (some (seedA (str "usr_1") (str "tre_1") (str "per_a") (str "per_b"))) (str "per_d")
        ewa demoStore).1 = Outcome.rejected r) ∧
    (submitPersonForm (str "usr_1") (str "tre_1")
        (some (seedA (str "usr_1") (str "tre_1") (str "per_a") (str "per_b"))) (str "per_d")
        ewa demoStore).2 = demoStore :=
  (rejected_save_writes_nothing (str "usr_1") (str "tre_1") (str "per_d")
    (some (seedA (str "usr_1") (str "tre_1") (str "per_a") (str "per_b"))) ewa demoStore).2
    (seedA (str "usr_1") (str "tre_1") (str "per_a") (str "per_b")) rfl
    (Or.inr (Or.inr (by decide)))

/-- Claim C6 as stated fails: Piotr is stored alone, his father `per_a` is
not; nobody has the id `per_a`, and `deletePerson` with that id changes the
stored list (it empties the `fatherId` of Piotr). -/
theorem deletePerson_absent_id_changes_store :
    (∀ p ∈ orphanStore, p.id ≠ str "per_a") ∧
    deletePerson orphanStore (str "per_a") ≠ orphanStore ∧
    (deletePerson orphanStore (str "per_a")).map Person.fatherId = [[]] ∧
    orphanStore.map Person.fatherId = [str "per_a"] := by
  refine ⟨by decide, by decide, by decide, by decide⟩

/-- Claim C6, amended: for an id no stored person has, `deletePerson` removes
nobody: the stored list afterwards is the previous one with the `fatherId`,
`motherId` and `partnerId` equal to the id emptied; it is the previous list
when moreover no stored person has the id as `fatherId`, `motherId` or
`partnerId`. -/
theorem deletePerson_of_absent (s : Store) (i : JSString) (habs : ∀ p ∈ s, p.id ≠ i) :
    deletePerson s i = s.map (clearRefs i) ∧
    ((∀ p ∈ s, p.fatherId ≠ i ∧ p.motherId ≠ i ∧ p.partnerId ≠ i) → deletePerson s i = s) := by
  have h1 : deletePerson s i = s.map (clearRefs i) := deletePerson_eq_map habs
  refine ⟨h1, fun hno => ?_⟩
  rw [h1]
  conv_rhs => rw [← List.map_id s]
  apply List.map_congr_left
  intro p hp
  obtain ⟨hf, hm, hr⟩ := hno p hp
  simpa using clearRefs_of_ne i p hf hm hr

/-- Claim C6, amended, on the seeded store: nobody has the id `per_x` and
nobody refers to it; deleting it leaves the seeded store. -/
theorem deletePerson_of_absent_seeded : deletePerson demoStore (str "per_x") = demoStore :=
  (deletePerson_of_absent demoStore (str "per_x") (by decide)).2 (by decide)

/-- Claim C7: `deletePerson` is idempotent: a second call with the same id
leaves the stored list as the first call left it. -/
theorem deletePerson_idempotent (s : Store) (i : JSString) :
    deletePerson (deletePerson s i) i = deletePerson s i := by
  rw [deletePerson_eq_map (fun q hq => id_ne_of_mem_deletePerson hq)]
  unfold deletePerson
  rw [List.map_map]
  apply List.map_congr_left
  intro p _
  simp [clearRefs_idem]

/-- Claim C8 as stated fails: the seeded store has unique ids and belongs to
`usr_1` and `tre_1`; on a page of `usr_2` and `tre_2` a new person is
submitted and `uid` returns `per_a`, the id of Jan.  The save is accepted,
`upsertPerson` overwrites the record of that id, and the person found under
`per_a`, stored before and after, has changed its `ownerId` and `treeId`. -/
theorem save_with_stored_id_changes_owner :
    UniqueIds demoStore ∧
    (savePerson (str "usr_2") (str "tre_2") [] (str "per_a")
        { ewa with partnerId := [] } demoStore).1 =
      Outcome.saved (buildPerson (str "usr_2") (str "tre_2") none (str "per_a")
        { ewa with partnerId := [] }) ∧
    (getPersonById demoStore (str "per_a")).map Person.ownerId = some (str "usr_1") ∧
    (getPersonById demoStore (str "per_a")).map Person.treeId = some (str "tre_1") ∧
    (getPersonById (savePerson (str "usr_2") (str "tre_2") [] (str "per_a")
        { ewa with partnerId := [] } demoStore).2 (str "per_a")).map Person.ownerId =
      some (str "usr_2") ∧
    (getPersonById (savePerson (str "usr_2") (str "tre_2") [] (str "per_a")
        { ewa with partnerId := [] } demoStore).2 (str "per_a")).map Person.treeId =
      some (str "tre_2") ∧
    ¬ OwnerTreeKept demoStore
      (savePerson (str "usr_2") (str "tre_2") [] (str "per_a")
        { ewa with partnerId := [] } demoStore).2 := by
  refine ⟨by decide, by decide, by decide, by decide, by decide, by decide, by decide⟩

/-- Claim C8, amended: in a store with unique ids, a person save (an edited
person, or a new person whose generated id no stored person has, the partner
record included) and a `deletePerson` leave to every person stored before and
after its `ownerId` and its `treeId`, whatever the form and the page supply. -/
theorem owner_and_tree_never_change (s : Store) (hu : UniqueIds s) :
    (∀ (userId treeId personId newId : JSString) (v : FormValues),
      (loadExisting s userId treeId personId = none → ∀ q ∈ s, q.id ≠ newId) →
      OwnerTreeKept s (savePerson userId treeId personId newId v s).2) ∧
    (∀ i : JSString, OwnerTreeKept s (deletePerson s i)) := by
  refine ⟨?_, ?_⟩
  · intro userId treeId personId newId v hfresh
    unfold savePerson submitPersonForm
    split_ifs
    · exact ownerTreeKept_self hu
    · exact ownerTreeKept_self hu
    · exact ownerTreeKept_self hu
    · simp only
      set p := buildPerson userId treeId (loadExisting s userId treeId personId) newId v with hp
      have h1 : OwnerTreeKept s (upsertPerson s p) := by
        apply ownerTreeKept_upsertPerson hu
        intro a ha hid
        cases he : loadExisting s userId treeId personId with
        | none =>
          rw [he] at hp
          rw [hp, (buildPerson_none _ _ _ _).1] at hid
          exact absurd hid (hfresh he a ha)
        | some e =>
          rw [he] at hp
          obtain ⟨h1, h2, h3⟩ := buildPerson_some userId treeId e newId v
          rw [hp, h1] at hid
          have : a = e := eq_of_id_eq hu ha (loadExisting_some he) hid
          rw [hp, h2, h3, this]
          exact ⟨rfl, rfl⟩
      have h2 := ownerTreeKept_linkPartner (uniqueIds_upsertPerson hu p) v.partnerId p
      intro a ha b hb hid
      obtain ⟨c, hc, hci⟩ := id_kept_upsertPerson p ha
      obtain ⟨x1, x2⟩ := h1 a ha c hc hci
      obtain ⟨y1, y2⟩ := h2 c hc b hb (hid.trans hci.symm)
      exact ⟨y1.trans x1, y2.trans x2⟩
  · intro i a ha b hb hid
    obtain ⟨c, hc, -, rfl⟩ := mem_deletePerson.1 hb
    have : c = a := eq_of_id_eq hu hc ha (by simpa using hid)
    subst this
    simp

/-- Claim C8, amended, on the seeded store: Anna is edited from a page of another user
and tree with Jan as partner (a person is created instead, under the
generated id), Anna is edited from her own page, and Jan is deleted; the
owners and the trees of the stored persons stay. -/
theorem owner_and_tree_seeded :
    OwnerTreeKept demoStore
      (savePerson (str "usr_2") (str "tre_2") (str "per_b") (str "per_d") ewa demoStore).2 ∧
    OwnerTreeKept demoStore
      (savePerson (str "usr_1") (str "tre_1") (str "per_b") (str "per_d") ewa demoStore).2 ∧
    OwnerTreeKept demoStore (deletePerson demoStore (str "per_a")) :=
  ⟨(owner_and_tree_never_change demoStore (by decide)).1 (str "usr_2") (str "tre_2")
      (str "per_b") (str "per_d") ewa (by decide),
   (owner_and_tree_never_change demoStore (by decide)).1 (str "usr_1") (str "tre_1")
      (str "per_b") (str "per_d") ewa (by decide),
   (owner_and_tree_never_change demoStore (by decide)).2 (str "per_a")⟩

/-- Claim C9: `deletePerson` keeps referential integrity: when every non-empty
`fatherId`, `motherId` and `partnerId` is the id of a stored person of the
same tree, the same holds after `deletePerson(id)`, for every id. -/
theorem deletePerson_preserves_references (s : Store) (i : JSString)
    (h : ReferencesResolve s) : ReferencesResolve (deletePerson s i) := by
  intro q hq r hr hne
  obtain ⟨p, hp, hpi, rfl⟩ := mem_deletePerson.1 hq
  have key : r ∈ [p.fatherId, p.motherId, p.partnerId] ∧ r ≠ i := by
    simp only [List.mem_cons, List.mem_singleton, List.not_mem_nil, or_false,
      clearRefs_fatherId, clearRefs_motherId, clearRefs_partnerId] at hr ⊢
    rcases hr with hr | hr | hr <;> split_ifs at hr with hc <;> subst hr <;> simp_all
  obtain ⟨t, ht, hti, htt⟩ := h p hp r key.1 hne
  refine ⟨clearRefs i t, mem_deletePerson.2 ⟨t, ht, ?_, rfl⟩, ?_, ?_⟩
  · rw [hti]; exact key.2
  · simpa using hti
  · simpa using htt

/-- Claim C9 on the seeded store: its references resolve, and they still do
after Jan, partner of Anna and father of Piotr, is deleted. -/
theorem deletePerson_preserves_references_seeded :
    ReferencesResolve demoStore ∧ ReferencesResolve (deletePerson demoStore (str "per_a")) :=
  ⟨by decide, deletePerson_preserves_references demoStore (str "per_a") (by decide)⟩

/-- Claim C10: on two dates written `YYYY-MM-DD` (year below 10000, month and
day of two digits), the submit returns the warning of the date test exactly
when the names pass the first test and `birthDate` is a later calendar day
than `deathDate`; for the same day or an earlier one the date test does not
reject. -/
theorem date_check_is_calendar_order (y1 m1 d1 y2 m2 d2 : Nat) (hy1 : y1 < 10000)
    (hm1 : m1 < 100) (hd1 : d1 < 100) (hy2 : y2 < 10000) (hm2 : m2 < 100) (hd2 : d2 < 100)
    (userId treeId newId : JSString) (existing : Option Person) (v : FormValues) (s : Store) :
    (submitPersonForm userId treeId existing newId
        { v with birthDate := isoDate y1 m1 d1, deathDate := isoDate y2 m2 d2 } s).1 =
      Outcome.rejected Rejection.birthAfterDeath ↔
    ¬ ((trim v.firstName).length < 2 ∨ (trim v.lastName).length < 2) ∧
      laterDay y1 m1 d1 y2 m2 d2 := by
  rw [← strGt_isoDate y1 m1 d1 y2 m2 d2 hy1 hm1 hd1 hy2 hm2 hd2]
  have hb : isoDate y1 m1 d1 ≠ [] := by simp [isoDate]
  have hd : isoDate y2 m2 d2 ≠ [] := by simp [isoDate]
  unfold submitPersonForm
  split_ifs with h1 h2 h3 <;> simp_all

/-- Claim C10 on the example of the specification: born 2000-01-01 and dead
1999-01-01 is rejected by the date test; with the dates swapped it is not. -/
theorem date_check_examples :
    (submitPersonForm (str "usr_1") (str "tre_1") none (str "per_d")
        { ewa with birthDate := isoDate 2000 1 1, deathDate := isoDate 1999 1 1 } demoStore).1 =
      Outcome.rejected Rejection.birthAfterDeath ∧
    (submitPersonForm (str "usr_1") (str "tre_1") none (str "per_d")
        { ewa with birthDate := isoDate 1999 1 1, deathDate := isoDate 2000 1 1 } demoStore).1 ≠
      Outcome.rejected Rejection.birthAfterDeath :=
  ⟨(date_check_is_calendar_order 2000 1 1 1999 1 1 (by decide) (by decide) (by decide)
      (by decide) (by decide) (by decide) (str "usr_1") (str "tre_1") (str "per_d") none ewa
      demoStore).2 ⟨by decide, by decide⟩,
   fun h => absurd
    ((date_check_is_calendar_order 1999 1 1 2000 1 1 (by decide) (by decide) (by decide)
      (by decide) (by decide) (by decide) (str "usr_1") (str "tre_1") (str "per_d") none ewa
      demoStore).1 h).2 (by decide)⟩

end Gene
